import Mathlib

/-!
# Dense row-major matrix library: embedding and verified properties

Shallow embedding of `matrix.h` (class `Matrix<T>` and the free operators
`*=`, `+`, `-`, `*`) and of `Random<T>::fillMatrixWithRand` from `random.h`.

* `std::size_t` values are natural numbers; every size expression the source
  computes (`rows * cols`, `i * cols + j`, `j * rows + i`) is reduced modulo
  `2 ^ 64`, as unsigned arithmetic does.
* `std::vector<T>` is a `List`; reading or writing past its end is undefined
  behaviour in the source and is the fault `Fault.outOfRange` here.
* A failed `assert` aborts the program: the fault `Fault.assertion`.
* A member function that mutates `*this` and returns a copy yields the pair
  (object afterwards, returned value).
* Element arithmetic is exact: the element type is any type with the needed
  operations (a semiring or ring in the theorems).
* The free operator templates `+`, `-` and `*` declare their result as
  `Matrix c(r, c);` (matrix.h:181, :209, :238). Outside the class `Matrix`
  names the template, and its argument cannot be deduced from two
  `std::size_t` values, so these three templates cannot be instantiated as
  shipped. `Matrix.add`, `Matrix.sub` and `Matrix.mul` are their bodies with
  the declaration read as `Matrix<T> c(r, c);`; they are used only to state
  that such a body keeps the size predicate.
-/

namespace MatrixLib

/-- Number of values of a 64-bit `std::size_t`. -/
def SIZE_MOD : Nat := 2 ^ 64

/-- Unsigned wrap-around of a `std::size_t` expression. -/
def wrap (n : Nat) : Nat := n % SIZE_MOD

/-- The two ways an operation stops without a result. -/
inductive Fault where
  /-- A failed `assert` (contract violation, the process aborts). -/
  | assertion
  /-- An index past the end of a `std::vector` (undefined behaviour). -/
  | outOfRange
deriving DecidableEq, Repr

/-- Read `xs[k]` of a `std::vector`. -/
def vecGet {α : Type} (xs : List α) (k : Nat) : Except Fault α :=
  match xs[k]? with
  | some x => .ok x
  | none => .error .outOfRange

/-- Assign `xs[k] = x` in a `std::vector`. -/
def vecSet {α : Type} (xs : List α) (k : Nat) (x : α) : Except Fault (List α) :=
  if k < xs.length then .ok (xs.set k x) else .error .outOfRange

/-- Loop `for (std::size_t i = 0; i < n; i++) body(i)` over a state; a fault in
the body ends the loop. The bound does not change while the loop runs. -/
def forLoop {σ : Type} (body : Nat → σ → Except Fault σ) : Nat → σ → Except Fault σ
  | 0, s => .ok s
  | k + 1, s =>
    match forLoop body k s with
    | .ok t => body k t
    | .error e => .error e

/-- Class `Matrix<T>`: the private fields `rows`, `cols`, `elements`. -/
structure Matrix (α : Type) where
  rows : Nat
  cols : Nat
  elements : List α
deriving DecidableEq, Repr

namespace Matrix

variable {α : Type}

/-- Constructor `Matrix(r, c)`: `assert(rows > 0 && cols > 0)` and
`elements.resize(rows * cols)`. -/
def new [Zero α] (r c : Nat) : Except Fault (Matrix α) :=
  if 0 < r ∧ 0 < c then
    .ok { rows := r, cols := c, elements := List.replicate (wrap (r * c)) 0 }
  else .error .assertion

/-- Constructor `Matrix(r, c, v)`: as `Matrix(r, c)`, then
`elements[i] = v[i]` for `i < rows * cols`. -/
def ofVector [Zero α] (r c : Nat) (v : List α) : Except Fault (Matrix α) :=
  if 0 < r ∧ 0 < c then
    match forLoop (fun i els =>
        match vecGet v i with
        | .ok x => vecSet els i x
        | .error e => .error e)
      (wrap (r * c)) (List.replicate (wrap (r * c)) 0) with
    | .ok els => .ok { rows := r, cols := c, elements := els }
    | .error e => .error e
  else .error .assertion

/-- Member `shape()`. -/
def shape (m : Matrix α) : Nat × Nat := (m.rows, m.cols)

/-- Member `operator()(i, j)` read: `assert(i < rows && j < cols)` and
`elements[i * cols + j]`. This is the spec's `at(i, j)`. -/
def getAt (m : Matrix α) (i j : Nat) : Except Fault α :=
  if i < m.rows ∧ j < m.cols then vecGet m.elements (wrap (i * m.cols + j))
  else .error .assertion

/-- Assignment through the reference that `operator()(i, j)` returns. -/
def setAt (m : Matrix α) (i j : Nat) (x : α) : Except Fault (Matrix α) :=
  if i < m.rows ∧ j < m.cols then
    match vecSet m.elements (wrap (i * m.cols + j)) x with
    | .ok els => .ok { m with elements := els }
    | .error e => .error e
  else .error .assertion

/-- Member `transpose()`: fills a fresh buffer of `rows * cols` elements with
`new_elements[j * rows + i] = elements[i * cols + j]`, moves it into
`elements`, swaps `rows` and `cols` and returns a copy of `*this`. -/
def transpose [Zero α] (m : Matrix α) : Except Fault (Matrix α × Matrix α) :=
  match forLoop (fun i buf =>
      forLoop (fun j buf =>
        match vecGet m.elements (wrap (i * m.cols + j)) with
        | .ok x => vecSet buf (wrap (j * m.rows + i)) x
        | .error e => .error e) m.cols buf)
    m.rows (List.replicate (wrap (m.rows * m.cols)) 0) with
  | .ok buf =>
    let self : Matrix α := { rows := m.cols, cols := m.rows, elements := buf }
    .ok (self, self)
  | .error e => .error e

/-- Free `operator*=(a, num)`: for `i < rows * cols`, `a(i, 0) = a(i, 0) * num`;
returns a copy of `a`. -/
def mulAssign [Mul α] (a : Matrix α) (num : α) : Except Fault (Matrix α × Matrix α) :=
  let (rows, cols) := a.shape
  match forLoop (fun i a =>
      match a.getAt i 0 with
      | .ok x => a.setAt i 0 (x * num)
      | .error e => .error e) (wrap (rows * cols)) a with
  | .ok a1 => .ok (a1, a1)
  | .error e => .error e

/-- The two nested loops shared by `operator+` and `operator-`:
`c(i, j) = a(i, j) op b(i, j)`. -/
def zipLoop (op : α → α → α) (a b : Matrix α) (rows cols : Nat) (c : Matrix α) :
    Except Fault (Matrix α) :=
  forLoop (fun i c =>
    forLoop (fun j c =>
      match a.getAt i j with
      | .ok x =>
        match b.getAt i j with
        | .ok y => c.setAt i j (op x y)
        | .error e => .error e
      | .error e => .error e) cols c) rows c

/-- Body of the free `operator+(a, b)`, its result declared as
`Matrix<T> c(a_rows, a_cols);`. The shipped declaration is
`Matrix c(a_rows, a_cols);`, from which `T` cannot be deduced: as shipped the
operator template cannot be instantiated and computes nothing. -/
def add [Zero α] [Add α] (a b : Matrix α) : Except Fault (Matrix α) :=
  if a.rows = b.rows ∧ a.cols = b.cols then
    match (Matrix.new a.rows a.cols : Except Fault (Matrix α)) with
    | .ok c => let (rows, cols) := c.shape; zipLoop (fun x y => x + y) a b rows cols c
    | .error e => .error e
  else .error .assertion

/-- Body of the free `operator-(a, b)`, its result declared as
`Matrix<T> c(a_rows, a_cols);`. The shipped declaration is
`Matrix c(a_rows, a_cols);`, from which `T` cannot be deduced: as shipped the
operator template cannot be instantiated and computes nothing. -/
def sub [Zero α] [Sub α] (a b : Matrix α) : Except Fault (Matrix α) :=
  if a.rows = b.rows ∧ a.cols = b.cols then
    match (Matrix.new a.rows a.cols : Except Fault (Matrix α)) with
    | .ok c => let (rows, cols) := c.shape; zipLoop (fun x y => x - y) a b rows cols c
    | .error e => .error e
  else .error .assertion

/-- The innermost loop of `operator*`: `sum = 0; sum += a(i, k) * b(k, j)` for
`k < a_cols`. -/
def dotLoop [Zero α] [Add α] [Mul α] (a b : Matrix α) (i j : Nat) : Except Fault α :=
  forLoop (fun k sum =>
    match a.getAt i k with
    | .ok x =>
      match b.getAt k j with
      | .ok y => .ok (sum + x * y)
      | .error e => .error e
    | .error e => .error e) a.cols 0

/-- Body of the free `operator*(a, b)`, its result declared as
`Matrix<T> c(a_rows, b_cols);`. The shipped declaration is
`Matrix c(a_rows, b_cols);`, from which `T` cannot be deduced: as shipped the
operator template cannot be instantiated and computes nothing. -/
def mul [Zero α] [Add α] [Mul α] (a b : Matrix α) : Except Fault (Matrix α) :=
  if a.cols = b.rows then
    match (Matrix.new a.rows b.cols : Except Fault (Matrix α)) with
    | .ok c =>
      let (rows, cols) := c.shape
      forLoop (fun i c =>
        forLoop (fun j c =>
          match dotLoop a b i j with
          | .ok sum => c.setAt i j sum
          | .error e => .error e) cols c) rows c
    | .error e => .error e
  else .error .assertion

/-- The data-model invariant of a matrix: positive dimensions and exactly
`rows * cols` stored elements, a count a `std::vector` can hold. -/
def Valid (m : Matrix α) : Prop :=
  0 < m.rows ∧ 0 < m.cols ∧ m.elements.length = m.rows * m.cols ∧ m.elements.length < SIZE_MOD

instance (m : Matrix α) : Decidable m.Valid := by
  unfold Valid; infer_instance

/-- Shape `(R, C)` with exactly `R * C` stored elements. -/
def Sized (R C : Nat) (m : Matrix α) : Prop :=
  m.rows = R ∧ m.cols = C ∧ m.elements.length = R * C

end Matrix

/-- Member `Random<T>::fillMatrixWithRand(m)`: `m(i, j) = genNumber()` for
`i < rows`, `j < cols`. The generator (`std::mt19937` behind a
`std::uniform_real_distribution`) is a state `γ` with the function `genNumber`
that draws one value and advances the state. -/
def fillMatrixWithRand {α γ : Type} (genNumber : γ → α × γ) (g : γ) (m : Matrix α) :
    Except Fault (γ × Matrix α) :=
  let (rows, cols) := m.shape
  forLoop (fun i s =>
    forLoop (fun j s =>
      let (x, g1) := genNumber s.1
      match s.2.setAt i j x with
      | .ok m1 => .ok (g1, m1)
      | .error e => .error e) cols s) rows (g, m)

/-- The size predicate of the data model: `elements.length == rows * cols`. -/
def Matrix.SizeOk {α : Type} (m : Matrix α) : Prop :=
  m.elements.length = m.rows * m.cols

/-- State of the generator after `k` calls of `genNumber()` from state `g`. -/
def genState {α γ : Type} (genNumber : γ → α × γ) (g : γ) : Nat → γ
  | 0 => g
  | k + 1 => (genNumber (genState genNumber g k)).2

/-- The `k`-th value (0-based) that successive `genNumber()` calls produce
from state `g`. -/
def genValue {α γ : Type} (genNumber : γ → α × γ) (g : γ) (k : Nat) : α :=
  (genNumber (genState genNumber g k)).1

/-! ## Loops, indices and vectors -/

theorem wrap_of_lt {n : Nat} (h : n < SIZE_MOD) : wrap n = n :=
  Nat.mod_eq_of_lt h

/-- Total correctness of a loop from an invariant indexed by the counter. -/
theorem forLoop_inv {σ : Type} (P : Nat → σ → Prop) (body : Nat → σ → Except Fault σ)
    (n : Nat) (s : σ) (h0 : P 0 s)
    (hstep : ∀ k, k < n → ∀ t, P k t → ∃ u, body k t = .ok u ∧ P (k + 1) u) :
    ∃ t, forLoop body n s = .ok t ∧ P n t := by
  induction n with
  | zero => exact ⟨s, rfl, h0⟩
  | succ n ih =>
    obtain ⟨t, ht, hP⟩ := ih (fun k hk => hstep k (Nat.lt_succ_of_lt hk))
    obtain ⟨u, hu, hPu⟩ := hstep n (Nat.lt_succ_self n) t hP
    exact ⟨u, by simp [forLoop, ht, hu], hPu⟩

/-- Row-major offsets stay below `R * C`. -/
theorem rowMajor_lt {R C i j : Nat} (hi : i < R) (hj : j < C) : i * C + j < R * C := by
  calc i * C + j < i * C + C := by omega
    _ = (i + 1) * C := by ring
    _ ≤ R * C := Nat.mul_le_mul_right C hi

/-- Row-major offsets determine the cell. -/
theorem rowMajor_inj {C i j p q : Nat} (hj : j < C) (hq : q < C)
    (h : i * C + j = p * C + q) : i = p ∧ j = q := by
  have hC : 0 < C := by omega
  have h1 : (i * C + j) / C = i := by
    rw [Nat.add_comm, Nat.add_mul_div_right _ _ hC, Nat.div_eq_of_lt hj, Nat.zero_add]
  have h2 : (p * C + q) / C = p := by
    rw [Nat.add_comm, Nat.add_mul_div_right _ _ hC, Nat.div_eq_of_lt hq, Nat.zero_add]
  have hip : i = p := by rw [← h1, ← h2, h]
  subst hip
  exact ⟨rfl, by omega⟩

theorem vecGet_of_getElem? {α : Type} {xs : List α} {k : Nat} {x : α} (h : xs[k]? = some x) :
    vecGet xs k = .ok x := by
  simp [vecGet, h]

theorem vecSet_of_lt {α : Type} {xs : List α} {k : Nat} (x : α) (h : k < xs.length) :
    vecSet xs k x = .ok (xs.set k x) := by
  simp [vecSet, h]

/-- Two nested loops that store the value `val i j` at offset `idx i j` of a
buffer seen through `els`, with an invariant `Q` indexed by the number of cells
done: the loops finish and every cell holds its value. -/
theorem fill_nested {σ α : Type} (els : σ → List α) (Q : Nat → σ → Prop) (R C : Nat)
    (idx : Nat → Nat → Nat) (val : Nat → Nat → Option α)
    (body : Nat → Nat → σ → Except Fault σ) (s : σ) (hQ : Q 0 s)
    (hinj : ∀ i j p q, i < R → j < C → p < R → q < C → idx i j = idx p q → i = p ∧ j = q)
    (hbody : ∀ i j, i < R → j < C → ∀ t, Q (i * C + j) t →
      ∃ u x, body i j t = .ok u ∧ Q (i * C + j + 1) u ∧ idx i j < (els t).length ∧
        val i j = some x ∧ els u = (els t).set (idx i j) x) :
    ∃ t, forLoop (fun i s => forLoop (fun j s => body i j s) C s) R s = .ok t ∧
      Q (R * C) t ∧ ∀ i j, i < R → j < C → (els t)[idx i j]? = val i j := by
  let Inv : Nat → σ → Prop := fun n t =>
    Q n t ∧ ∀ p q, p < R → q < C → p * C + q < n → (els t)[idx p q]? = val p q
  have key : ∃ t, forLoop (fun i s => forLoop (fun j s => body i j s) C s) R s = .ok t ∧
      Inv (R * C) t := by
    apply forLoop_inv (fun i t => Inv (i * C) t)
    · exact ⟨by simpa using hQ, fun p q _ _ h => by simp at h⟩
    · intro i hi t hInv
      have inner : ∃ u, forLoop (fun j s => body i j s) C t = .ok u ∧ Inv (i * C + C) u := by
        apply forLoop_inv (fun j t => Inv (i * C + j) t)
        · simpa using hInv
        · intro j hj t ht
          obtain ⟨u, x, hu, hQu, hlt, hval, hels⟩ := hbody i j hi hj t ht.1
          refine ⟨u, hu, hQu, ?_⟩
          intro p q hp hq hpq
          rw [hels]
          by_cases hc : p * C + q = i * C + j
          · obtain ⟨rfl, rfl⟩ := rowMajor_inj hq hj hc
            rw [hval]
            exact List.getElem?_set_self hlt
          · have hne : idx i j ≠ idx p q := fun h => by
              obtain ⟨rfl, rfl⟩ := hinj i j p q hi hj hp hq h
              exact hc rfl
            rw [List.getElem?_set_ne hne]
            exact ht.2 p q hp hq (by omega)
      obtain ⟨u, hu, hInvu⟩ := inner
      refine ⟨u, hu, ?_⟩
      have : (i + 1) * C = i * C + C := by ring
      rw [this]; exact hInvu
  obtain ⟨t, ht, hQt, hall⟩ := key
  exact ⟨t, ht, hQt, fun i j hi hj => hall i j hi hj (rowMajor_lt hi hj)⟩

/-! ## Element access on a matrix of known shape -/

namespace Matrix

variable {α : Type}

theorem Valid.sized {m : Matrix α} (h : m.Valid) : Sized m.rows m.cols m :=
  ⟨rfl, rfl, h.2.2.1⟩

theorem Valid.lt {m : Matrix α} (h : m.Valid) : m.rows * m.cols < SIZE_MOD := by
  have := h.2.2.2
  rw [h.2.2.1] at this
  exact this

theorem getAt_iff {R C : Nat} {m : Matrix α} (hm : Sized R C m) (hlt : R * C < SIZE_MOD)
    {i j : Nat} (hi : i < R) (hj : j < C) (x : α) :
    m.getAt i j = .ok x ↔ m.elements[i * C + j]? = some x := by
  obtain ⟨hr, hc, hl⟩ := hm
  have hk : i * C + j < R * C := rowMajor_lt hi hj
  have hw : wrap (i * C + j) = i * C + j := wrap_of_lt (by omega)
  have hk2 : i * C + j < m.elements.length := by omega
  simp only [getAt, hr, hc, hi, hj, and_self, if_true, hw, vecGet]
  rw [List.getElem?_eq_getElem hk2]
  simp

theorem getAt_exists {R C : Nat} {m : Matrix α} (hm : Sized R C m) (hlt : R * C < SIZE_MOD)
    {i j : Nat} (hi : i < R) (hj : j < C) :
    ∃ x, m.getAt i j = .ok x ∧ m.elements[i * C + j]? = some x := by
  have hk : i * C + j < m.elements.length := by
    rw [hm.2.2]; exact rowMajor_lt hi hj
  exact ⟨m.elements[i * C + j], (getAt_iff hm hlt hi hj _).2 (List.getElem?_eq_getElem hk),
    List.getElem?_eq_getElem hk⟩

theorem setAt_sized {R C : Nat} {m : Matrix α} (hm : Sized R C m) (hlt : R * C < SIZE_MOD)
    {i j : Nat} (hi : i < R) (hj : j < C) (x : α) :
    m.setAt i j x = .ok { m with elements := m.elements.set (i * C + j) x } := by
  obtain ⟨hr, hc, hl⟩ := hm
  have hk : i * C + j < R * C := rowMajor_lt hi hj
  have hw : wrap (i * C + j) = i * C + j := wrap_of_lt (by omega)
  have hk2 : i * C + j < m.elements.length := by omega
  simp [setAt, hr, hc, hi, hj, hw, vecSet, hk2]

theorem new_sized [Zero α] {r c : Nat} (hr : 0 < r) (hc : 0 < c) (hlt : r * c < SIZE_MOD) :
    ∃ m : Matrix α, Matrix.new r c = .ok m ∧ Sized r c m ∧ m.elements = List.replicate (r * c) 0 := by
  refine ⟨{ rows := r, cols := c, elements := List.replicate (r * c) 0 }, ?_, ⟨rfl, rfl, ?_⟩, rfl⟩
  · simp [Matrix.new, hr, hc, wrap_of_lt hlt]
  · simp

end Matrix

/-! ## Construction -/

namespace Matrix

variable {α : Type}

/-- The copy loop of `Matrix(r, c, v)`: with `n ≤ v.size()` it finishes and the
buffer holds the first `n` elements of `v`. -/
theorem copyLoop_spec (v : List α) (n : Nat) (buf : List α) (hbuf : buf.length = n)
    (hv : n ≤ v.length) :
    ∃ els, forLoop (fun i els =>
        match vecGet v i with
        | .ok x => vecSet els i x
        | .error e => .error e) n buf = .ok els ∧
      els.length = n ∧ ∀ q, q < n → els[q]? = v[q]? := by
  have h := forLoop_inv (fun k (els : List α) => els.length = n ∧ ∀ q, q < k → els[q]? = v[q]?)
    (fun i els =>
        match vecGet v i with
        | .ok x => vecSet els i x
        | .error e => .error e) n buf ⟨hbuf, fun q hq => by omega⟩
    (fun k hk t ht => by
      have hkv : k < v.length := by omega
      refine ⟨t.set k v[k], ?_, by simpa using ht.1, ?_⟩
      · have h1 : vecGet v k = .ok v[k] := vecGet_of_getElem? (List.getElem?_eq_getElem hkv)
        simp only [h1]
        exact vecSet_of_lt _ (by omega)
      · intro q hq
        by_cases hqk : q = k
        · subst hqk
          rw [List.getElem?_set_self (by omega), List.getElem?_eq_getElem hkv]
        · rw [List.getElem?_set_ne (fun h => hqk h.symm)]
          exact ht.2 q (by omega))
  obtain ⟨els, h1, h2, h3⟩ := h
  exact ⟨els, h1, h2, h3⟩

end Matrix

/-- C1: for `rows ≥ 1`, `cols ≥ 1` and a vector `v` holding at least
`rows * cols` elements, `Matrix(rows, cols, v)` is built, has shape
`(rows, cols)`, and `at(i, j)` is `v[i * cols + j]` for every `i < rows`,
`j < cols`. (`v.length < 2 ^ 64` is the size limit of any `std::vector`.) -/
theorem ofVector_at {α : Type} [Zero α] (rows cols : Nat) (v : List α)
    (hr : 1 ≤ rows) (hc : 1 ≤ cols) (hv : rows * cols ≤ v.length) (hsz : v.length < SIZE_MOD) :
    ∃ m, Matrix.ofVector rows cols v = .ok m ∧ m.shape = (rows, cols) ∧
      ∀ i j, i < rows → j < cols →
        ∃ x, vecGet v (i * cols + j) = .ok x ∧ m.getAt i j = .ok x := by
  have hlt : rows * cols < SIZE_MOD := by omega
  obtain ⟨els, hloop, hlen, hall⟩ :=
    Matrix.copyLoop_spec v (rows * cols) (List.replicate (rows * cols) 0) (by simp) hv
  refine ⟨{ rows := rows, cols := cols, elements := els }, ?_, rfl, ?_⟩
  · have hpos : 0 < rows ∧ 0 < cols := ⟨hr, hc⟩
    simp only [Matrix.ofVector, hpos, and_self, if_true, wrap_of_lt hlt, hloop]
  · intro i j hi hj
    have hk : i * cols + j < v.length := by
      have := rowMajor_lt hi hj
      omega
    refine ⟨v[i * cols + j], vecGet_of_getElem? (List.getElem?_eq_getElem hk), ?_⟩
    have hm : Matrix.Sized rows cols ({ rows := rows, cols := cols, elements := els } : Matrix α) :=
      ⟨rfl, rfl, hlen⟩
    rw [Matrix.getAt_iff hm hlt hi hj]
    show els[i * cols + j]? = _
    rw [hall _ (rowMajor_lt hi hj), List.getElem?_eq_getElem hk]

/-- Witness for C1, the spec's scenario: `X = Matrix(4, 2, [0,0,0,1,1,0,1,1])`
has shape `(4, 2)`, `X.at(1, 1) == 1` and `X.at(2, 0) == 1`. -/
theorem ofVector_at_witness :
    ∃ m : Matrix Int, Matrix.ofVector 4 2 [0, 0, 0, 1, 1, 0, 1, 1] = .ok m ∧ m.shape = (4, 2) ∧
      m.getAt 1 1 = .ok 1 ∧ m.getAt 2 0 = .ok 1 := by
  obtain ⟨m, hm, hs, hall⟩ := ofVector_at 4 2 ([0, 0, 0, 1, 1, 0, 1, 1] : List Int)
    (by decide) (by decide) (by decide) (by decide)
  refine ⟨m, hm, hs, ?_, ?_⟩
  · obtain ⟨x, hx, hg⟩ := hall 1 1 (by decide) (by decide)
    have : x = 1 := by
      have h : vecGet ([0, 0, 0, 1, 1, 0, 1, 1] : List Int) (1 * 2 + 1) = .ok 1 := rfl
      rw [h] at hx
      exact (Except.ok.inj hx).symm
    rw [hg, this]
  · obtain ⟨x, hx, hg⟩ := hall 2 0 (by decide) (by decide)
    have : x = 1 := by
      have h : vecGet ([0, 0, 0, 1, 1, 0, 1, 1] : List Int) (2 * 2 + 0) = .ok 1 := rfl
      rw [h] at hx
      exact (Except.ok.inj hx).symm
    rw [hg, this]

/-- C2 as stated fails: `Matrix(2^32, 2^32)` is built (the size `rows * cols`
wraps to `0`), reports shape `(2^32, 2^32)`, and its `at(0, 0)` indexes an
empty buffer instead of yielding zero. -/
theorem new_zero_counterexample :
    ∃ m : Matrix Int, Matrix.new 4294967296 4294967296 = .ok m ∧
      m.shape = (4294967296, 4294967296) ∧ m.elements = [] ∧
      m.getAt 0 0 = .error .outOfRange ∧ m.getAt 0 0 ≠ .ok 0 :=
  ⟨⟨4294967296, 4294967296, []⟩, rfl, rfl, rfl, rfl, by intro h; cases h⟩

/-- C2 (amended): for `rows ≥ 1`, `cols ≥ 1` with `rows * cols < 2 ^ 64`,
`Matrix(rows, cols)` is built, `shape()` is `(rows, cols)` and `at(i, j)` is
zero for every `i < rows`, `j < cols`. -/
theorem new_zero {α : Type} [Zero α] (rows cols : Nat) (hr : 1 ≤ rows) (hc : 1 ≤ cols)
    (hlt : rows * cols < SIZE_MOD) :
    ∃ m : Matrix α, Matrix.new rows cols = .ok m ∧ m.shape = (rows, cols) ∧
      ∀ i j, i < rows → j < cols → m.getAt i j = .ok 0 := by
  obtain ⟨m, hm, hsz, hels⟩ : ∃ m : Matrix α, Matrix.new rows cols = .ok m ∧
      Matrix.Sized rows cols m ∧ m.elements = List.replicate (rows * cols) 0 :=
    Matrix.new_sized hr hc hlt
  refine ⟨m, hm, ?_, fun i j hi hj => ?_⟩
  · simp [Matrix.shape, hsz.1, hsz.2.1]
  · rw [Matrix.getAt_iff hsz hlt hi hj, hels]
    exact List.getElem?_replicate_of_lt (rowMajor_lt hi hj)

/-- Witness for C2 (amended): the `2 x 2` matrix `W` of the usage example. -/
theorem new_zero_witness :
    ∃ m : Matrix Int, Matrix.new 2 2 = .ok m ∧ m.shape = (2, 2) ∧
      ∀ i j, i < 2 → j < 2 → m.getAt i j = .ok 0 :=
  new_zero 2 2 (by decide) (by decide) (by decide)

/-! ## Buffers that agree, loops that fault -/

/-- Two buffers of `R * C` elements that agree at every row-major offset are
equal. -/
theorem list_ext_rowMajor {α : Type} {R C : Nat} {xs ys : List α} (hx : xs.length = R * C)
    (hy : ys.length = R * C)
    (h : ∀ i j, i < R → j < C → xs[i * C + j]? = ys[i * C + j]?) : xs = ys := by
  apply List.ext_getElem?
  intro n
  by_cases hn : n < R * C
  · have hC : 0 < C := by
      rcases Nat.eq_zero_or_pos C with h0 | h0
      · subst h0; simp at hn
      · exact h0
    have hi : n / C < R := (Nat.div_lt_iff_lt_mul hC).2 hn
    have hj : n % C < C := Nat.mod_lt n hC
    have hn2 : n / C * C + n % C = n := by
      rw [Nat.mul_comm]; exact Nat.div_add_mod n C
    have := h (n / C) (n % C) hi hj
    rw [hn2] at this
    exact this
  · rw [List.getElem?_eq_none (by omega), List.getElem?_eq_none (by omega)]

/-- A fault in the first iteration is the loop's result. -/
theorem forLoop_error_zero {σ : Type} (body : Nat → σ → Except Fault σ) (n : Nat) (s : σ)
    (e : Fault) (hn : 0 < n) (h : body 0 s = .error e) : forLoop body n s = .error e := by
  induction n with
  | zero => omega
  | succ k ih =>
    rcases Nat.eq_zero_or_pos k with hk | hk
    · subst hk
      simp [forLoop, h]
    · simp [forLoop, ih hk]

/-! ## Transpose -/

namespace Matrix

variable {α : Type}

/-- The loops of `transpose()` over a buffer of `R * C` elements: they finish
and offset `j * R + i` of the new buffer holds offset `i * C + j` of the old. -/
theorem transposeLoop_spec {R C : Nat} (hlt : R * C < SIZE_MOD) (old buf : List α)
    (hold : old.length = R * C) (hbuf : buf.length = R * C) :
    ∃ out, forLoop (fun i buf =>
        forLoop (fun j buf =>
          match vecGet old (wrap (i * C + j)) with
          | .ok x => vecSet buf (wrap (j * R + i)) x
          | .error e => .error e) C buf) R buf = .ok out ∧
      out.length = R * C ∧ ∀ i j, i < R → j < C → out[j * R + i]? = old[i * C + j]? := by
  have hswap : ∀ i j, i < R → j < C → j * R + i < R * C := fun i j hi hj => by
    have := rowMajor_lt hj hi
    rwa [Nat.mul_comm C R] at this
  obtain ⟨out, hout, hlen, hall⟩ := fill_nested (fun t : List α => t)
    (fun _ t => t.length = R * C) R C (fun i j => j * R + i) (fun i j => old[i * C + j]?)
    (fun i j buf =>
      match vecGet old (wrap (i * C + j)) with
      | .ok x => vecSet buf (wrap (j * R + i)) x
      | .error e => .error e) buf hbuf
    (fun i j p q hi _ hp _ h => by
      obtain ⟨h1, h2⟩ := rowMajor_inj hi hp h
      exact ⟨h2, h1⟩)
    (fun i j hi hj t ht => by
      have hk : i * C + j < old.length := by rw [hold]; exact rowMajor_lt hi hj
      have hk2 : j * R + i < t.length := by rw [ht]; exact hswap i j hi hj
      have hw1 : wrap (i * C + j) = i * C + j := wrap_of_lt (by omega)
      have hw2 : wrap (j * R + i) = j * R + i := wrap_of_lt (by omega)
      refine ⟨t.set (j * R + i) old[i * C + j], old[i * C + j], ?_, ?_, hk2,
        List.getElem?_eq_getElem hk, rfl⟩
      · simp only [hw1, hw2, vecGet_of_getElem? (List.getElem?_eq_getElem hk)]
        exact vecSet_of_lt _ hk2
      · simpa using ht)
  exact ⟨out, hout, hlen, hall⟩

/-- What `transpose()` does to a valid matrix: the object afterwards and the
returned copy are one matrix `t`, valid, of swapped shape, whose buffer is the
transposed buffer. -/
theorem transpose_core [Zero α] (m : Matrix α) (hm : m.Valid) :
    ∃ t : Matrix α, m.transpose = .ok (t, t) ∧ t.Valid ∧ t.rows = m.cols ∧ t.cols = m.rows ∧
      ∀ i j, i < m.rows → j < m.cols →
        t.elements[j * m.rows + i]? = m.elements[i * m.cols + j]? := by
  obtain ⟨out, hout, hlen, hall⟩ := transposeLoop_spec hm.lt m.elements
    (List.replicate (m.rows * m.cols) 0) hm.2.2.1 (by simp)
  refine ⟨{ rows := m.cols, cols := m.rows, elements := out }, ?_, ?_, rfl, rfl, hall⟩
  · simp only [transpose, wrap_of_lt hm.lt, hout]
  · refine ⟨hm.2.1, hm.1, ?_, ?_⟩
    · show out.length = m.cols * m.rows
      rw [hlen, Nat.mul_comm]
    · show out.length < SIZE_MOD
      rw [hlen]; exact hm.lt

end Matrix

namespace Matrix

variable {α : Type}

/-- On a matrix with positive dimensions and an empty buffer the first store of
`transpose()` reads and writes past the end. -/
theorem transpose_empty_fault [Zero α] (m : Matrix α) (hr : 0 < m.rows) (hc : 0 < m.cols)
    (he : m.elements = []) : m.transpose = .error .outOfRange := by
  have hloop : forLoop (fun i buf =>
      forLoop (fun j buf =>
        match vecGet m.elements (wrap (i * m.cols + j)) with
        | .ok x => vecSet buf (wrap (j * m.rows + i)) x
        | .error e => .error e) m.cols buf)
      m.rows (List.replicate (wrap (m.rows * m.cols)) 0) = .error .outOfRange :=
    forLoop_error_zero _ _ _ _ hr (forLoop_error_zero _ _ _ _ hc (by simp [he, vecGet]))
  simp only [transpose, hloop]

end Matrix

/-- C6 as stated fails: `Matrix(2^32, 2^32)` is returned by the constructor
with shape `(2^32, 2^32)` and an empty buffer (`rows * cols` wraps to `0`), and
`transpose()` on it reads `elements[0]` past the end instead of producing the
transposed matrix. -/
theorem transpose_spec_counterexample :
    ∃ m : Matrix Int, Matrix.new 4294967296 4294967296 = .ok m ∧
      m.shape = (4294967296, 4294967296) ∧ m.elements = [] ∧
      m.transpose = .error .outOfRange :=
  ⟨⟨4294967296, 4294967296, []⟩, rfl, rfl, rfl,
    Matrix.transpose_empty_fault ⟨4294967296, 4294967296, []⟩
      (show (0 : Nat) < 4294967296 by norm_num) (show (0 : Nat) < 4294967296 by norm_num) rfl⟩

/-- C6 (amended): for a matrix `m` of shape `(rows, cols)` whose buffer holds
exactly `rows * cols` elements (a `std::vector`, so fewer than `2 ^ 64`),
`transpose()` leaves `m` with shape `(cols, rows)` and a buffer with
`new[j * rows + i] == old[i * cols + j]`, so the new `at(j, i)` is the old
`at(i, j)`, for every `i < rows`, `j < cols`; the returned value equals the
mutated matrix. -/
theorem transpose_spec {α : Type} [Zero α] (m : Matrix α) (hs : m.SizeOk)
    (hv : m.elements.length < SIZE_MOD) :
    ∃ self ret : Matrix α, m.transpose = .ok (self, ret) ∧ ret = self ∧
      self.shape = (m.cols, m.rows) ∧
      ∀ i j, i < m.rows → j < m.cols →
        ∃ x, vecGet m.elements (i * m.cols + j) = .ok x ∧
          vecGet self.elements (j * m.rows + i) = .ok x ∧
          m.getAt i j = .ok x ∧ self.getAt j i = .ok x := by
  have hlt : m.rows * m.cols < SIZE_MOD := by rw [← hs]; exact hv
  have hms : Matrix.Sized m.rows m.cols m := ⟨rfl, rfl, hs⟩
  obtain ⟨out, hout, hlen, hall⟩ := Matrix.transposeLoop_spec hlt m.elements
    (List.replicate (m.rows * m.cols) 0) hs (by simp)
  have hts : Matrix.Sized m.cols m.rows
      ({ rows := m.cols, cols := m.rows, elements := out } : Matrix α) :=
    ⟨rfl, rfl, by rw [hlen, Nat.mul_comm]⟩
  have htl : m.cols * m.rows < SIZE_MOD := by rw [Nat.mul_comm]; exact hlt
  refine ⟨{ rows := m.cols, cols := m.rows, elements := out }, _, ?_, rfl, rfl,
    fun i j hi hj => ?_⟩
  · simp only [Matrix.transpose, wrap_of_lt hlt, hout]
  · obtain ⟨x, hx, hx2⟩ := Matrix.getAt_exists hms hlt hi hj
    have hy : out[j * m.rows + i]? = some x := by rw [hall i j hi hj, hx2]
    exact ⟨x, vecGet_of_getElem? hx2, vecGet_of_getElem? hy, hx,
      (Matrix.getAt_iff hts htl hj hi x).2 hy⟩

/-- Witness for C6 (amended): transposing `Matrix(2,3,[1,2,3,4,5,6])` gives
`Matrix(3,2,[1,4,2,5,3,6])`, as the object and as the returned value. -/
theorem transpose_spec_witness :
    (⟨2, 3, [1, 2, 3, 4, 5, 6]⟩ : Matrix Int).transpose =
      .ok (⟨3, 2, [1, 4, 2, 5, 3, 6]⟩, ⟨3, 2, [1, 4, 2, 5, 3, 6]⟩) ∧
    ∃ self ret : Matrix Int, (⟨2, 3, [1, 2, 3, 4, 5, 6]⟩ : Matrix Int).transpose =
        .ok (self, ret) ∧ ret = self ∧ self.shape = (3, 2) ∧
      ∀ i j, i < 2 → j < 3 →
        ∃ x, vecGet ([1, 2, 3, 4, 5, 6] : List Int) (i * 3 + j) = .ok x ∧
          vecGet self.elements (j * 2 + i) = .ok x ∧
          (⟨2, 3, [1, 2, 3, 4, 5, 6]⟩ : Matrix Int).getAt i j = .ok x ∧
          self.getAt j i = .ok x :=
  ⟨rfl, transpose_spec ⟨2, 3, [1, 2, 3, 4, 5, 6]⟩ rfl (by decide)⟩

/-- C7: for a valid matrix `m`, `transpose()` applied twice gives back `m`:
the first call yields some `t`, and the second call on `t` yields `m` itself,
that is the original `rows`, `cols` and an equal element buffer. -/
theorem transpose_involution {α : Type} [Zero α] (m : Matrix α) (hm : m.Valid) :
    ∃ t : Matrix α, m.transpose = .ok (t, t) ∧ t.transpose = .ok (m, m) ∧
      ∃ u : Matrix α, t.transpose = .ok (u, u) ∧ u.shape = m.shape ∧
        u.elements = m.elements := by
  obtain ⟨t, ht, htv, hr, hc, hall⟩ := Matrix.transpose_core m hm
  obtain ⟨u, hu, huv, hur, huc, hall2⟩ := Matrix.transpose_core t htv
  have hrows : u.rows = m.rows := by rw [hur, hc]
  have hcols : u.cols = m.cols := by rw [huc, hr]
  have hels : u.elements = m.elements := by
    apply list_ext_rowMajor (R := m.rows) (C := m.cols) _ hm.2.2.1
    · intro i j hi hj
      have h1 := hall2 j i (by rw [hr]; exact hj) (by rw [hc]; exact hi)
      rw [hr, hc] at h1
      rw [h1, hall i j hi hj]
    · rw [huv.2.2.1, hrows, hcols]
  have hum : u = m := by
    cases u; cases m
    simp only [Matrix.mk.injEq]
    exact ⟨hrows, hcols, hels⟩
  subst hum
  exact ⟨t, ht, hu, u, hu, rfl, rfl⟩

/-- Witness for C7: `Matrix(2,3,[1,2,3,4,5,6])` transposed twice. -/
theorem transpose_involution_witness :
    ∃ t : Matrix Int, (⟨2, 3, [1, 2, 3, 4, 5, 6]⟩ : Matrix Int).transpose = .ok (t, t) ∧
      t.transpose = .ok (⟨2, 3, [1, 2, 3, 4, 5, 6]⟩, ⟨2, 3, [1, 2, 3, 4, 5, 6]⟩) ∧
      ∃ u : Matrix Int, t.transpose = .ok (u, u) ∧ u.shape = (2, 3) ∧
        u.elements = [1, 2, 3, 4, 5, 6] :=
  transpose_involution ⟨2, 3, [1, 2, 3, 4, 5, 6]⟩ (by decide)

/-! ## Scalar multiply-assign -/

/-- C8 at a failing input: on the valid `1 x 2` matrix `[1 2]`, `a *= 3` stops
on the failed assertion of `a(1, 0)` (row index `1` is not below `rows == 1`)
and returns no matrix; with one column the same operator scales every element. -/
theorem mulAssign_two_columns_fault :
    (⟨1, 2, [1, 2]⟩ : Matrix Int).Valid ∧
    (⟨1, 2, [1, 2]⟩ : Matrix Int).mulAssign 3 = .error .assertion ∧
    (⟨2, 2, [1, 2, 3, 4]⟩ : Matrix Int).mulAssign 3 = .error .assertion ∧
    (⟨2, 1, [1, 2]⟩ : Matrix Int).mulAssign 3 = .ok (⟨2, 1, [3, 6]⟩, ⟨2, 1, [3, 6]⟩) :=
  ⟨by decide, rfl, rfl, rfl⟩

/-! ## The size invariant -/

/-- A property kept by every successful iteration holds when the loop ends. -/
theorem forLoop_preserves {σ : Type} (P : σ → Prop) (body : Nat → σ → Except Fault σ)
    (hstep : ∀ k t u, P t → body k t = .ok u → P u) :
    ∀ n s u, P s → forLoop body n s = .ok u → P u := by
  intro n
  induction n with
  | zero =>
    intro s u hs h
    simp only [forLoop] at h
    rw [← Except.ok.inj h]; exact hs
  | succ n ih =>
    intro s u hs h
    simp only [forLoop] at h
    cases hn : forLoop body n s with
    | error e => rw [hn] at h; cases h
    | ok t =>
      rw [hn] at h
      exact hstep n t u (ih s t hs hn) h

/-- A loop with an iteration that cannot succeed does not succeed. -/
theorem forLoop_fault {σ : Type} (P : σ → Prop) (body : Nat → σ → Except Fault σ)
    (hstep : ∀ k t u, P t → body k t = .ok u → P u) (k0 : Nat)
    (hf : ∀ t u, P t → body k0 t ≠ .ok u) :
    ∀ n s u, k0 < n → P s → forLoop body n s ≠ .ok u := by
  intro n
  induction n with
  | zero => intro s u hk; omega
  | succ n ih =>
    intro s u hk hs h
    simp only [forLoop] at h
    cases hn : forLoop body n s with
    | error e => rw [hn] at h; cases h
    | ok t =>
      rw [hn] at h
      rcases Nat.lt_succ_iff_lt_or_eq.1 hk with hlt | heq
      · exact ih s t hlt hs hn
      · subst heq
        exact hf t u (forLoop_preserves P body hstep k0 s t hs hn) h

theorem vecSet_ok {α : Type} {xs ys : List α} {k : Nat} {x : α} (h : vecSet xs k x = .ok ys) :
    ys.length = xs.length ∧ k < xs.length := by
  unfold vecSet at h
  split_ifs at h with hk
  rw [← Except.ok.inj h]
  exact ⟨List.length_set xs k x, hk⟩

namespace Matrix

variable {α : Type}

/-- A successful store through `operator()` keeps `rows`, `cols` and the
buffer length, and its offset was inside the buffer. -/
theorem setAt_ok {m u : Matrix α} {i j : Nat} {x : α} (h : m.setAt i j x = .ok u) :
    u.rows = m.rows ∧ u.cols = m.cols ∧ u.elements.length = m.elements.length ∧
      wrap (i * m.cols + j) < m.elements.length := by
  unfold setAt at h
  split_ifs at h with hij
  cases hv : vecSet m.elements (wrap (i * m.cols + j)) x with
  | error e => rw [hv] at h; cases h
  | ok els =>
    rw [hv] at h
    obtain ⟨h1, h2⟩ := vecSet_ok hv
    rw [← Except.ok.inj h]
    exact ⟨rfl, rfl, h1, h2⟩

theorem setAt_sizeOk {m u : Matrix α} {i j : Nat} {x : α} (hm : m.SizeOk)
    (h : m.setAt i j x = .ok u) : u.SizeOk := by
  obtain ⟨h1, h2, h3, _⟩ := setAt_ok h
  unfold SizeOk at *
  rw [h1, h2, h3, hm]

/-- Nested loops that store into every cell of a matrix built by
`Matrix(n, m)`: when they succeed the result holds exactly `n * m` elements
(when `n * m` does not fit `std::size_t` some store is out of range). -/
theorem setLoops_sizeOk (n m : Nat) (body : Nat → Nat → Matrix α → Except Fault (Matrix α))
    (hbody : ∀ i j t u, body i j t = .ok u → ∃ x, t.setAt i j x = .ok u)
    (c d : Matrix α) (hc : c.rows = n ∧ c.cols = m ∧ c.elements.length = wrap (n * m))
    (h : forLoop (fun i s => forLoop (fun j s => body i j s) m s) n c = .ok d) :
    d.SizeOk := by
  let P : Matrix α → Prop := fun t =>
    t.rows = n ∧ t.cols = m ∧ t.elements.length = wrap (n * m)
  have hin : ∀ i j t u, P t → body i j t = .ok u → P u := by
    intro i j t u ht hb
    obtain ⟨x, hx⟩ := hbody i j t u hb
    obtain ⟨h1, h2, h3, _⟩ := setAt_ok hx
    exact ⟨h1.trans ht.1, h2.trans ht.2.1, h3.trans ht.2.2⟩
  have hout : ∀ i t u, P t → forLoop (fun j s => body i j s) m t = .ok u → P u :=
    fun i t u ht hl => forLoop_preserves P (fun j s => body i j s) (hin i) m t u ht hl
  have hd : P d := forLoop_preserves P _ hout n c d hc h
  by_cases hlt : n * m < SIZE_MOD
  · unfold SizeOk
    rw [hd.1, hd.2.1, hd.2.2, wrap_of_lt hlt]
  · exfalso
    have hW : wrap (n * m) < SIZE_MOD := Nat.mod_lt _ (by unfold SIZE_MOD; positivity)
    have hWlt : wrap (n * m) < n * m := by omega
    have hm : 0 < m := by
      rcases Nat.eq_zero_or_pos m with h0 | h0
      · subst h0; simp at hWlt
      · exact h0
    have hi0 : wrap (n * m) / m < n := (Nat.div_lt_iff_lt_mul hm).2 hWlt
    have hj0 : wrap (n * m) % m < m := Nat.mod_lt _ hm
    have hsum : wrap (n * m) / m * m + wrap (n * m) % m = wrap (n * m) := by
      rw [Nat.mul_comm]; exact Nat.div_add_mod _ m
    have hcell : ∀ t u, P t → body (wrap (n * m) / m) (wrap (n * m) % m) t ≠ .ok u := by
      intro t u ht hb
      obtain ⟨x, hx⟩ := hbody _ _ t u hb
      obtain ⟨_, _, _, h4⟩ := setAt_ok hx
      rw [ht.2.1, hsum, wrap_of_lt hW, ht.2.2] at h4
      exact Nat.lt_irrefl _ h4
    have hrow : ∀ t u, P t →
        forLoop (fun j s => body (wrap (n * m) / m) j s) m t ≠ .ok u :=
      fun t u ht => forLoop_fault P _ (hin _) _ hcell m t u hj0 ht
    exact forLoop_fault P _ hout _ hrow n c d hi0 hc h

/-- A matrix returned by `Matrix(r, c)` has shape `(r, c)` and `r * c`
elements counted in `std::size_t`. -/
theorem new_ok [Zero α] {r c : Nat} {m : Matrix α} (h : Matrix.new r c = .ok m) :
    m.rows = r ∧ m.cols = c ∧ m.elements.length = wrap (r * c) := by
  unfold Matrix.new at h
  split_ifs at h
  rw [← Except.ok.inj h]
  exact ⟨rfl, rfl, List.length_replicate _ _⟩

theorem new_sizeOk [Zero α] {r c : Nat} {m : Matrix α} (hlt : r * c < SIZE_MOD)
    (h : Matrix.new r c = .ok m) : m.SizeOk := by
  obtain ⟨h1, h2, h3⟩ := new_ok h
  unfold SizeOk
  rw [h1, h2, h3, wrap_of_lt hlt]

/-- A matrix returned by `Matrix(r, c, v)` has shape `(r, c)` and `r * c`
elements counted in `std::size_t`. -/
theorem ofVector_ok [Zero α] {r c : Nat} {v : List α} {m : Matrix α}
    (h : Matrix.ofVector r c v = .ok m) :
    m.rows = r ∧ m.cols = c ∧ m.elements.length = wrap (r * c) := by
  unfold Matrix.ofVector at h
  split_ifs at h
  cases hl : forLoop (fun i els =>
      match vecGet v i with
      | .ok x => vecSet els i x
      | .error e => .error e) (wrap (r * c)) (List.replicate (wrap (r * c)) 0) with
  | error e => rw [hl] at h; cases h
  | ok els =>
    rw [hl] at h
    have hlen : els.length = wrap (r * c) :=
      forLoop_preserves (fun t : List α => t.length = wrap (r * c)) _
        (fun k t u ht hb => by
          cases hg : vecGet v k with
          | error e => rw [hg] at hb; cases hb
          | ok x =>
            rw [hg] at hb
            exact (vecSet_ok hb).1.trans ht)
        _ _ els (List.length_replicate _ _) hl
    rw [← Except.ok.inj h]
    exact ⟨rfl, rfl, hlen⟩

theorem ofVector_sizeOk [Zero α] {r c : Nat} {v : List α} {m : Matrix α}
    (hlt : r * c < SIZE_MOD) (h : Matrix.ofVector r c v = .ok m) : m.SizeOk := by
  obtain ⟨h1, h2, h3⟩ := ofVector_ok h
  unfold SizeOk
  rw [h1, h2, h3, wrap_of_lt hlt]

theorem transpose_sizeOk [Zero α] {m s r : Matrix α} (hm : m.SizeOk)
    (hv : m.elements.length < SIZE_MOD) (h : m.transpose = .ok (s, r)) :
    s.SizeOk ∧ r.SizeOk := by
  have hlt : m.rows * m.cols < SIZE_MOD := by rw [← hm]; exact hv
  obtain ⟨out, hout, hlen, _⟩ := transposeLoop_spec hlt m.elements
    (List.replicate (m.rows * m.cols) 0) hm (by simp)
  simp only [transpose, wrap_of_lt hlt, hout] at h
  have hpair := Except.ok.inj h
  have hs : s = { rows := m.cols, cols := m.rows, elements := out } :=
    (congrArg Prod.fst hpair).symm
  have hr : r = { rows := m.cols, cols := m.rows, elements := out } :=
    (congrArg Prod.snd hpair).symm
  subst hs; subst hr
  have : out.length = m.cols * m.rows := by rw [hlen, Nat.mul_comm]
  exact ⟨this, this⟩

theorem mulAssign_sizeOk [Mul α] {a s r : Matrix α} {num : α} (ha : a.SizeOk)
    (h : a.mulAssign num = .ok (s, r)) : s.SizeOk ∧ r.SizeOk := by
  simp only [mulAssign, shape] at h
  cases hl : forLoop (fun i a =>
      match a.getAt i 0 with
      | .ok x => a.setAt i 0 (x * num)
      | .error e => .error e) (wrap (a.rows * a.cols)) a with
  | error e => rw [hl] at h; cases h
  | ok t =>
    rw [hl] at h
    have ht : t.SizeOk :=
      forLoop_preserves (fun t : Matrix α => t.SizeOk) _
        (fun k t u ht hb => by
          cases hg : t.getAt k 0 with
          | error e => rw [hg] at hb; cases hb
          | ok x =>
            rw [hg] at hb
            exact setAt_sizeOk ht hb)
        _ _ t ha hl
    have hpair := Except.ok.inj h
    have hs : t = s := congrArg Prod.fst hpair
    have hr : t = r := congrArg Prod.snd hpair
    subst hs; subst hr
    exact ⟨ht, ht⟩

theorem zipLoop_body_ok (op : α → α → α) (a b : Matrix α) (i j : Nat) (t u : Matrix α)
    (h : (match a.getAt i j with
      | .ok x =>
        match b.getAt i j with
        | .ok y => t.setAt i j (op x y)
        | .error e => .error e
      | .error e => .error e) = .ok u) : ∃ x, t.setAt i j x = .ok u := by
  cases hx : a.getAt i j with
  | error e => rw [hx] at h; cases h
  | ok x =>
    cases hy : b.getAt i j with
    | error e => rw [hx, hy] at h; cases h
    | ok y =>
      rw [hx, hy] at h
      exact ⟨op x y, h⟩

theorem add_sizeOk [Zero α] [Add α] {a b c : Matrix α} (h : a.add b = .ok c) : c.SizeOk := by
  unfold add at h
  split_ifs at h
  cases hn : (Matrix.new a.rows a.cols : Except Fault (Matrix α)) with
  | error e => rw [hn] at h; cases h
  | ok c0 =>
    rw [hn] at h
    obtain ⟨h1, h2, h3⟩ := new_ok hn
    simp only [shape, h1, h2, zipLoop] at h
    exact setLoops_sizeOk a.rows a.cols _ (zipLoop_body_ok _ a b) c0 c ⟨h1, h2, h3⟩ h

theorem sub_sizeOk [Zero α] [Sub α] {a b c : Matrix α} (h : a.sub b = .ok c) : c.SizeOk := by
  unfold sub at h
  split_ifs at h
  cases hn : (Matrix.new a.rows a.cols : Except Fault (Matrix α)) with
  | error e => rw [hn] at h; cases h
  | ok c0 =>
    rw [hn] at h
    obtain ⟨h1, h2, h3⟩ := new_ok hn
    simp only [shape, h1, h2, zipLoop] at h
    exact setLoops_sizeOk a.rows a.cols _ (zipLoop_body_ok _ a b) c0 c ⟨h1, h2, h3⟩ h

theorem mul_sizeOk [Zero α] [Add α] [Mul α] {a b c : Matrix α} (h : a.mul b = .ok c) :
    c.SizeOk := by
  unfold mul at h
  split_ifs at h
  cases hn : (Matrix.new a.rows b.cols : Except Fault (Matrix α)) with
  | error e => rw [hn] at h; cases h
  | ok c0 =>
    rw [hn] at h
    obtain ⟨h1, h2, h3⟩ := new_ok hn
    simp only [shape, h1, h2] at h
    refine setLoops_sizeOk a.rows b.cols _ (fun i j t u hb => ?_) c0 c ⟨h1, h2, h3⟩ h
    cases hd : dotLoop a b i j with
    | error e => rw [hd] at hb; cases hb
    | ok sum =>
      rw [hd] at hb
      exact ⟨sum, hb⟩

end Matrix

theorem fill_sizeOk {α γ : Type} (genNumber : γ → α × γ) {g g1 : γ} {m m1 : Matrix α}
    (hm : m.SizeOk) (h : fillMatrixWithRand genNumber g m = .ok (g1, m1)) : m1.SizeOk := by
  simp only [fillMatrixWithRand, Matrix.shape] at h
  have hin : ∀ i j (t u : γ × Matrix α), t.2.SizeOk →
      (match t.2.setAt i j (genNumber t.1).1 with
        | .ok m1 => Except.ok ((genNumber t.1).2, m1)
        | .error e => .error e) = .ok u → u.2.SizeOk := by
    intro i j t u ht hb
    cases hs : t.2.setAt i j (genNumber t.1).1 with
    | error e => rw [hs] at hb; cases hb
    | ok m2 =>
      rw [hs] at hb
      rw [← Except.ok.inj hb]
      exact Matrix.setAt_sizeOk ht hs
  exact forLoop_preserves (fun t : γ × Matrix α => t.2.SizeOk) _
    (fun i t u ht hl => forLoop_preserves (fun t : γ × Matrix α => t.2.SizeOk) _
      (hin i) _ t u ht hl) _ (g, m) (g1, m1) hm h

/-- C10 as stated fails for both constructors: `Matrix(2^32, 2^32)` and
`Matrix(2^32, 2^32, {})` are built with an empty buffer (`rows * cols` wraps to
`0` in `std::size_t`), so `elements.length == rows * cols` does not hold. -/
theorem sizeOk_counterexample :
    (∃ m : Matrix Int, Matrix.new 4294967296 4294967296 = .ok m ∧ m.elements.length = 0 ∧
      ¬ m.SizeOk) ∧
    (∃ m : Matrix Int, Matrix.ofVector 4294967296 4294967296 [] = .ok m ∧
      m.elements.length = 0 ∧ ¬ m.SizeOk) := by
  have hne : ¬ (⟨4294967296, 4294967296, []⟩ : Matrix Int).SizeOk := by
    unfold Matrix.SizeOk
    show ¬ (0 = 4294967296 * 4294967296)
    norm_num
  exact ⟨⟨⟨4294967296, 4294967296, []⟩, rfl, rfl, hne⟩,
    ⟨⟨4294967296, 4294967296, []⟩, rfl, rfl, hne⟩⟩

/-- C10 (amended): `elements.length == rows * cols` holds for every matrix
either constructor returns when `rows * cols < 2 ^ 64`, and every operation
keeps it: for a matrix `a` that satisfies it (its buffer a `std::vector`, so
shorter than `2 ^ 64`), so does whatever element assignment through
`at(i, j)`, `transpose()`, `*=` and `fillMatrixWithRand` leave or return, and
so does every matrix that `+`, `-` or `*` returns. The last two parts: without
the bound a constructed matrix holds `rows * cols` modulo `2 ^ 64` elements. -/
theorem sizeOk_invariant {α γ : Type} [Ring α] (a : Matrix α) (ha : a.SizeOk)
    (hv : a.elements.length < SIZE_MOD) :
    (∀ r c (m : Matrix α), r * c < SIZE_MOD → Matrix.new r c = .ok m → m.SizeOk) ∧
    (∀ r c (v : List α) (m : Matrix α), r * c < SIZE_MOD →
      Matrix.ofVector r c v = .ok m → m.SizeOk) ∧
    (∀ i j x m, a.setAt i j x = .ok m → m.SizeOk) ∧
    (∀ s r, a.transpose = .ok (s, r) → s.SizeOk ∧ r.SizeOk) ∧
    (∀ num s r, a.mulAssign num = .ok (s, r) → s.SizeOk ∧ r.SizeOk) ∧
    (∀ (genNumber : γ → α × γ) g g1 m,
      fillMatrixWithRand genNumber g a = .ok (g1, m) → m.SizeOk) ∧
    (∀ b c, a.add b = .ok c → c.SizeOk) ∧
    (∀ b c, a.sub b = .ok c → c.SizeOk) ∧
    (∀ b c, a.mul b = .ok c → c.SizeOk) ∧
    (∀ b c : Matrix α, b.mul a = .ok c → c.SizeOk) ∧
    (∀ r c (m : Matrix α), Matrix.new r c = .ok m →
      m.elements.length = wrap (m.rows * m.cols)) ∧
    (∀ r c (v : List α) (m : Matrix α), Matrix.ofVector r c v = .ok m →
      m.elements.length = wrap (m.rows * m.cols)) :=
  ⟨fun _ _ _ hlt h => Matrix.new_sizeOk hlt h,
    fun _ _ _ _ hlt h => Matrix.ofVector_sizeOk hlt h,
    fun _ _ _ _ h => Matrix.setAt_sizeOk ha h,
    fun _ _ h => Matrix.transpose_sizeOk ha hv h,
    fun _ _ _ h => Matrix.mulAssign_sizeOk ha h,
    fun genNumber _ _ _ h => fill_sizeOk genNumber ha h,
    fun _ _ h => Matrix.add_sizeOk h,
    fun _ _ h => Matrix.sub_sizeOk h,
    fun _ _ h => Matrix.mul_sizeOk h,
    fun _ _ h => Matrix.mul_sizeOk h,
    fun _ _ _ h => by
      obtain ⟨h1, h2, h3⟩ := Matrix.new_ok h
      rw [h1, h2, h3],
    fun _ _ _ _ h => by
      obtain ⟨h1, h2, h3⟩ := Matrix.ofVector_ok h
      rw [h1, h2, h3]⟩

/-- Witness for C10 (amended): from the `2 x 1` matrix `[1; 2]`, the matrices
that assignment, `transpose()`, `*= 3`, a fill from a counting generator,
`+`, `-` and `*` produce all hold `rows * cols` elements. -/
theorem sizeOk_invariant_witness :
    (⟨2, 1, [1, 2]⟩ : Matrix Int).SizeOk ∧
    (⟨2, 1, [1, 7]⟩ : Matrix Int).SizeOk ∧
    (⟨1, 2, [1, 2]⟩ : Matrix Int).SizeOk ∧
    (⟨2, 1, [3, 6]⟩ : Matrix Int).SizeOk ∧
    (⟨2, 1, [0, 1]⟩ : Matrix Int).SizeOk ∧
    (⟨2, 1, [2, 4]⟩ : Matrix Int).SizeOk ∧
    (⟨2, 1, [0, 0]⟩ : Matrix Int).SizeOk ∧
    (⟨2, 2, [3, 4, 6, 8]⟩ : Matrix Int).SizeOk := by
  have ha : (⟨2, 1, [1, 2]⟩ : Matrix Int).SizeOk := rfl
  have h := @sizeOk_invariant Int Nat _ ⟨2, 1, [1, 2]⟩ ha (by decide)
  exact ⟨ha,
    h.2.2.1 1 0 7 _ rfl,
    (h.2.2.2.1 _ _ rfl).1,
    (h.2.2.2.2.1 3 _ _ rfl).1,
    h.2.2.2.2.2.1 (fun g => ((g : Int), g + 1)) 0 2 _ rfl,
    h.2.2.2.2.2.2.1 ⟨2, 1, [1, 2]⟩ _ rfl,
    h.2.2.2.2.2.2.2.1 ⟨2, 1, [1, 2]⟩ _ rfl,
    h.2.2.2.2.2.2.2.2.1 ⟨1, 2, [3, 4]⟩ _ rfl⟩

/-! ## Contract violations -/

/-- C13 as stated fails: on `Matrix(2^32, 2^32)`, returned by the constructor
with an empty buffer, the indices `i = 0 < rows` and `j = 0 < cols` pass the
range check, yet neither the read nor the assignment through `at(0, 0)`
succeeds: both index past the end of the buffer. -/
theorem at_fail_iff_counterexample :
    ∃ m : Matrix Int, Matrix.new 4294967296 4294967296 = .ok m ∧
      0 < m.rows ∧ 0 < m.cols ∧ m.elements = [] ∧
      m.getAt 0 0 = .error .outOfRange ∧ m.setAt 0 0 7 = .error .outOfRange :=
  ⟨⟨4294967296, 4294967296, []⟩, rfl, show (0 : Nat) < 4294967296 by norm_num,
    show (0 : Nat) < 4294967296 by norm_num, rfl, rfl, rfl⟩

/-- C13 (amended): for a matrix `m` of shape `(rows, cols)` and any `i`, `j`,
reading or assigning through `at(i, j)` stops on the failed assertion exactly
when `i >= rows` or `j >= cols`; for `i < rows` and `j < cols`, when the buffer
holds exactly `rows * cols` elements (a `std::vector`, so fewer than `2 ^ 64`),
the access succeeds and is the buffer element at linear index `i * cols + j`. -/
theorem at_fail_iff {α : Type} (m : Matrix α) (i j : Nat) :
    (m.getAt i j = .error .assertion ↔ (m.rows ≤ i ∨ m.cols ≤ j)) ∧
    (∀ x, m.setAt i j x = .error .assertion ↔ (m.rows ≤ i ∨ m.cols ≤ j)) ∧
    (m.SizeOk → m.elements.length < SIZE_MOD → i < m.rows → j < m.cols →
      (∃ x, m.getAt i j = .ok x ∧ vecGet m.elements (i * m.cols + j) = .ok x) ∧
      ∀ x, m.setAt i j x = .ok { m with elements := m.elements.set (i * m.cols + j) x }) := by
  have hok : m.SizeOk → m.elements.length < SIZE_MOD → i < m.rows → j < m.cols →
      (∃ x, m.getAt i j = .ok x ∧ vecGet m.elements (i * m.cols + j) = .ok x) ∧
      ∀ x, m.setAt i j x = .ok { m with elements := m.elements.set (i * m.cols + j) x } := by
    intro hs hv hi hj
    have hlt : m.rows * m.cols < SIZE_MOD := by rw [← hs]; exact hv
    have hms : Matrix.Sized m.rows m.cols m := ⟨rfl, rfl, hs⟩
    obtain ⟨y, hy, hy2⟩ := Matrix.getAt_exists hms hlt hi hj
    exact ⟨⟨y, hy, vecGet_of_getElem? hy2⟩, fun x => Matrix.setAt_sized hms hlt hi hj x⟩
  by_cases hin : i < m.rows ∧ j < m.cols
  · have hno : ¬ (m.rows ≤ i ∨ m.cols ≤ j) := by omega
    refine ⟨⟨fun h => ?_, fun h => absurd h hno⟩, fun x => ⟨fun h => ?_, fun h => absurd h hno⟩,
      hok⟩
    · exfalso
      simp only [Matrix.getAt, hin, and_self, if_true, vecGet] at h
      cases hg : m.elements[wrap (i * m.cols + j)]? with
      | none => rw [hg] at h; cases h
      | some y => rw [hg] at h; cases h
    · exfalso
      simp only [Matrix.setAt, hin, and_self, if_true, vecSet] at h
      by_cases hk : wrap (i * m.cols + j) < m.elements.length
      · rw [if_pos hk] at h; cases h
      · rw [if_neg hk] at h; cases h
  · have hout : m.rows ≤ i ∨ m.cols ≤ j := by omega
    refine ⟨⟨fun _ => hout, fun _ => by simp only [Matrix.getAt, hin, if_false]⟩,
      fun x => ⟨fun _ => hout, fun _ => by simp only [Matrix.setAt, hin, if_false]⟩,
      fun _ _ hi hj => absurd ⟨hi, hj⟩ hin⟩

/-- Witness for C13 (amended): on `Matrix(2,3,[1,2,3,4,5,6])`, `at(1, 2)` is the buffer
element `6` at index `1 * 3 + 2`, and `at(2, 0)`, `at(0, 3)` stop on the
assertion. -/
theorem at_fail_iff_witness :
    (⟨2, 3, [1, 2, 3, 4, 5, 6]⟩ : Matrix Int).getAt 2 0 = .error .assertion ∧
    (⟨2, 3, [1, 2, 3, 4, 5, 6]⟩ : Matrix Int).getAt 0 3 = .error .assertion ∧
    (⟨2, 3, [1, 2, 3, 4, 5, 6]⟩ : Matrix Int).setAt 2 0 9 = .error .assertion ∧
    (⟨2, 3, [1, 2, 3, 4, 5, 6]⟩ : Matrix Int).getAt 1 2 ≠ .error .assertion ∧
    (∃ x, (⟨2, 3, [1, 2, 3, 4, 5, 6]⟩ : Matrix Int).getAt 1 2 = .ok x ∧
      vecGet ([1, 2, 3, 4, 5, 6] : List Int) (1 * 3 + 2) = .ok x) := by
  exact ⟨(at_fail_iff _ 2 0).1.2 (Or.inl (by decide)),
    (at_fail_iff _ 0 3).1.2 (Or.inr (by decide)),
    ((at_fail_iff _ 2 0).2.1 9).2 (Or.inl (by decide)),
    fun h => absurd ((at_fail_iff _ 1 2).1.1 h) (by decide),
    ((at_fail_iff (⟨2, 3, [1, 2, 3, 4, 5, 6]⟩ : Matrix Int) 1 2).2.2 rfl (by decide)
      (by decide) (by decide)).1⟩

/-- C14: `Matrix(rows, cols)` and `Matrix(rows, cols, source)`, the source
holding at least `rows * cols` elements, stop on the failed assertion exactly
when `rows == 0` or `cols == 0`; with both positive, both return a matrix. -/
theorem constructor_fail_iff {α : Type} [Zero α] (rows cols : Nat) (source : List α)
    (hv : rows * cols ≤ source.length) :
    ((Matrix.new rows cols : Except Fault (Matrix α)) = .error .assertion ↔
      (rows = 0 ∨ cols = 0)) ∧
    (Matrix.ofVector rows cols source = .error .assertion ↔ (rows = 0 ∨ cols = 0)) ∧
    (0 < rows → 0 < cols →
      (∃ m : Matrix α, Matrix.new rows cols = .ok m) ∧
      ∃ m : Matrix α, Matrix.ofVector rows cols source = .ok m) := by
  have hok : 0 < rows → 0 < cols →
      (∃ m : Matrix α, Matrix.new rows cols = .ok m) ∧
      ∃ m : Matrix α, Matrix.ofVector rows cols source = .ok m := by
    intro hr hc
    have hpos : 0 < rows ∧ 0 < cols := ⟨hr, hc⟩
    have hw : wrap (rows * cols) ≤ source.length :=
      Nat.le_trans (Nat.mod_le _ _) hv
    obtain ⟨els, hloop, _, _⟩ := Matrix.copyLoop_spec source (wrap (rows * cols))
      (List.replicate (wrap (rows * cols)) 0) (by simp) hw
    refine ⟨⟨⟨rows, cols, List.replicate (wrap (rows * cols)) 0⟩,
        by simp only [Matrix.new, hpos, and_self, if_true]⟩,
      ⟨{ rows := rows, cols := cols, elements := els }, ?_⟩⟩
    simp only [Matrix.ofVector, hpos, and_self, if_true, hloop]
  have hzero : (rows = 0 ∨ cols = 0) → ¬ (0 < rows ∧ 0 < cols) := by omega
  refine ⟨⟨fun h => ?_, fun h => by simp only [Matrix.new, hzero h, if_false]⟩,
    ⟨fun h => ?_, fun h => by simp only [Matrix.ofVector, hzero h, if_false]⟩, hok⟩
  · by_contra hne
    obtain ⟨⟨m, hm⟩, _⟩ := hok (by omega) (by omega)
    rw [hm] at h
    cases h
  · by_contra hne
    obtain ⟨_, ⟨m, hm⟩⟩ := hok (by omega) (by omega)
    rw [hm] at h
    cases h

/-- Witness for C14: dimensions `(0, 2)` and `(2, 0)` stop both constructors on
the assertion; `(2, 2)` with the source `[1, 2, 3, 4]` does not. -/
theorem constructor_fail_iff_witness :
    (Matrix.new 0 2 : Except Fault (Matrix Int)) = .error .assertion ∧
    (Matrix.ofVector 2 0 [1, 2, 3, 4] : Except Fault (Matrix Int)) = .error .assertion ∧
    (∃ m : Matrix Int, Matrix.new 2 2 = .ok m) ∧
    (∃ m : Matrix Int, Matrix.ofVector 2 2 [1, 2, 3, 4] = .ok m) := by
  have h0 := constructor_fail_iff 0 2 ([1, 2, 3, 4] : List Int) (by decide)
  have h1 := constructor_fail_iff 2 0 ([1, 2, 3, 4] : List Int) (by decide)
  have h2 := constructor_fail_iff 2 2 ([1, 2, 3, 4] : List Int) (by decide)
  exact ⟨h0.1.2 (Or.inl rfl), h1.2.1.2 (Or.inr rfl), (h2.2.2 (by decide) (by decide)).1,
    (h2.2.2 (by decide) (by decide)).2⟩

/-- C15 at failing inputs: `Matrix(0, 5)`, `Matrix(5, 0)` and `Matrix(0, 0)`,
whose parameters are all greater than or equal to `0`, stop on the failed
`assert(rows > 0 && cols > 0)`, and so does `Matrix(0, 2, v)`; in general the
constructor stops on it whenever a dimension is `0`. -/
theorem new_zero_dimension_fault :
    (Matrix.new 0 5 : Except Fault (Matrix Int)) = .error .assertion ∧
    (Matrix.new 5 0 : Except Fault (Matrix Int)) = .error .assertion ∧
    (Matrix.new 0 0 : Except Fault (Matrix Int)) = .error .assertion ∧
    (Matrix.ofVector 0 2 [1, 2] : Except Fault (Matrix Int)) = .error .assertion ∧
    (∀ r c : Nat, (r = 0 ∨ c = 0) →
      (Matrix.new r c : Except Fault (Matrix Int)) = .error .assertion) := by
  refine ⟨rfl, rfl, rfl, rfl, fun r c h => ?_⟩
  have hn : ¬ (0 < r ∧ 0 < c) := by omega
  simp only [Matrix.new, hn, if_false]

/-! ## Random fill -/

/-- On a matrix with positive dimensions and an empty buffer the first store of
`fillMatrixWithRand` is past the end. -/
theorem fill_empty_fault {α γ : Type} (genNumber : γ → α × γ) (g : γ) (m : Matrix α)
    (hr : 0 < m.rows) (hc : 0 < m.cols) (he : m.elements = []) :
    fillMatrixWithRand genNumber g m = .error .outOfRange := by
  simp only [fillMatrixWithRand, Matrix.shape]
  refine forLoop_error_zero _ _ _ _ hr (forLoop_error_zero _ _ _ _ hc ?_)
  have hin : 0 < m.rows ∧ 0 < m.cols := ⟨hr, hc⟩
  simp [Matrix.setAt, hin, vecSet, he]

/-- C16 as stated fails: on `Matrix(2^32, 2^32)`, returned by the constructor
with an empty buffer, `fillMatrixWithRand` stores its first draw into
`m(0, 0)` past the end of the buffer and fills nothing. -/
theorem fill_row_major_counterexample :
    ∃ m : Matrix Int, Matrix.new 4294967296 4294967296 = .ok m ∧
      m.shape = (4294967296, 4294967296) ∧ m.elements = [] ∧
      fillMatrixWithRand (fun n : Nat => ((n : Int), n + 1)) 0 m = .error .outOfRange :=
  ⟨⟨4294967296, 4294967296, []⟩, rfl, rfl, rfl,
    fill_empty_fault _ 0 ⟨4294967296, 4294967296, []⟩
      (show (0 : Nat) < 4294967296 by norm_num) (show (0 : Nat) < 4294967296 by norm_num) rfl⟩

/-- C16 (amended): for a matrix `m` of shape `(rows, cols)` whose buffer holds
exactly `rows * cols` elements (a `std::vector`, so fewer than `2 ^ 64`) and a
generator state `g`, `fillMatrixWithRand(m)` returns, leaves the generator in
the state after exactly `rows * cols` draws, keeps the shape, and `at(i, j)`
afterwards is the `(i * cols + j)`-th value (0-based) drawn from `g`. -/
theorem fill_row_major {α γ : Type} (genNumber : γ → α × γ) (g : γ) (m : Matrix α)
    (hs : m.SizeOk) (hv : m.elements.length < SIZE_MOD) :
    ∃ m1, fillMatrixWithRand genNumber g m =
        .ok (genState genNumber g (m.rows * m.cols), m1) ∧
      m1.shape = m.shape ∧
      ∀ i j, i < m.rows → j < m.cols →
        m1.getAt i j = .ok (genValue genNumber g (i * m.cols + j)) := by
  have hlt : m.rows * m.cols < SIZE_MOD := by rw [← hs]; exact hv
  have hms : Matrix.Sized m.rows m.cols m := ⟨rfl, rfl, hs⟩
  obtain ⟨t, ht, ⟨hg, hsz⟩, hall⟩ := fill_nested (fun s : γ × Matrix α => s.2.elements)
    (fun n s => s.1 = genState genNumber g n ∧ Matrix.Sized m.rows m.cols s.2)
    m.rows m.cols (fun i j => i * m.cols + j)
    (fun i j => some (genValue genNumber g (i * m.cols + j)))
    (fun i j s =>
      match s.2.setAt i j (genNumber s.1).1 with
      | .ok m1 => .ok ((genNumber s.1).2, m1)
      | .error e => .error e) (g, m) ⟨rfl, hms⟩
    (fun i j p q _ hj _ hq h => rowMajor_inj hj hq h)
    (fun i j hi hj s hs => by
      refine ⟨((genNumber s.1).2,
        { s.2 with elements := s.2.elements.set (i * m.cols + j) (genNumber s.1).1 }),
        (genNumber s.1).1, ?_, ⟨?_, hs.2.1, hs.2.2.1, ?_⟩, ?_, ?_, rfl⟩
      · simp only [Matrix.setAt_sized hs.2 hlt hi hj]
      · show (genNumber s.1).2 = genState genNumber g (i * m.cols + j + 1)
        rw [hs.1]; rfl
      · simpa using hs.2.2.2
      · rw [hs.2.2.2]; exact rowMajor_lt hi hj
      · rw [hs.1]; rfl)
  refine ⟨t.2, ?_, by simp [Matrix.shape, hsz.1, hsz.2.1], fun i j hi hj => ?_⟩
  · simp only [fillMatrixWithRand, Matrix.shape]
    rw [ht, ← hg]
  · exact (Matrix.getAt_iff hsz hlt hi hj _).2 (hall i j hi hj)

/-- Witness for C16 (amended): a counting generator (state `n` yields the value `n` and
moves to `n + 1`) started at `10` fills a `2 x 3` matrix with `10 .. 15` in
row-major order and ends in state `16`. -/
theorem fill_row_major_witness :
    fillMatrixWithRand (fun n : Nat => ((n : Int), n + 1)) 10 ⟨2, 3, [0, 0, 0, 0, 0, 0]⟩ =
      .ok (16, ⟨2, 3, [10, 11, 12, 13, 14, 15]⟩) ∧
    ∃ m1 : Matrix Int,
      fillMatrixWithRand (fun n : Nat => ((n : Int), n + 1)) 10 ⟨2, 3, [0, 0, 0, 0, 0, 0]⟩ =
        .ok (genState (fun n : Nat => ((n : Int), n + 1)) 10 (2 * 3), m1) ∧
      m1.shape = (2, 3) ∧
      ∀ i j, i < 2 → j < 3 →
        m1.getAt i j = .ok (genValue (fun n : Nat => ((n : Int), n + 1)) 10 (i * 3 + j)) :=
  ⟨rfl, fill_row_major (fun n : Nat => ((n : Int), n + 1)) 10 ⟨2, 3, [0, 0, 0, 0, 0, 0]⟩
    rfl (by decide)⟩

/-! ## Scalar multiply-assign: when it completes -/

/-- A fault in iteration `k`, reached in state `t`, is the result of every
longer loop. -/
theorem forLoop_error_at {σ : Type} (body : Nat → σ → Except Fault σ) (k : Nat) (s t : σ)
    (e : Fault) (hk : forLoop body k s = .ok t) (he : body k t = .error e) :
    ∀ n, k < n → forLoop body n s = .error e := by
  intro n
  induction n with
  | zero => intro h; omega
  | succ n ih =>
    intro h
    rcases Nat.lt_succ_iff_lt_or_eq.1 h with hlt | heq
    · simp only [forLoop, ih hlt]
    · subst heq
      simp only [forLoop, hk, he]

namespace Matrix

variable {α : Type}

/-- The first `rows` iterations of the loop of `operator*=` on a valid matrix
succeed and keep the shape. -/
theorem mulAssign_prefix [Mul α] (a : Matrix α) (ha : a.Valid) (num : α) :
    ∃ t, forLoop (fun i a =>
        match a.getAt i 0 with
        | .ok x => a.setAt i 0 (x * num)
        | .error e => .error e) a.rows a = .ok t ∧ Sized a.rows a.cols t := by
  apply forLoop_inv (fun _ t => Sized a.rows a.cols t)
  · exact ha.sized
  · intro k hk t ht
    obtain ⟨x, hx, _⟩ := getAt_exists ht ha.lt hk ha.2.1
    refine ⟨_, by simp only [hx]; exact setAt_sized ht ha.lt hk ha.2.1 _, ?_⟩
    exact ⟨ht.1, ht.2.1, by simpa using ht.2.2⟩

end Matrix

/-- C17 as stated fails: `Matrix(2^32, 2^32)`, returned by the constructor, has
`rows >= 1` and `cols = 2^32 >= 2`, yet `a *= 3` completes without a failed
assertion: the loop bound `rows * cols` wraps to `0`, the loop body never
runs, and the matrix is returned as it was. -/
theorem mulAssign_one_column_iff_counterexample :
    ∃ m : Matrix Int, Matrix.new 4294967296 4294967296 = .ok m ∧
      1 ≤ m.rows ∧ 2 ≤ m.cols ∧ m.cols ≠ 1 ∧ wrap (m.rows * m.cols) = 0 ∧
      m.mulAssign 3 = .ok (m, m) :=
  ⟨⟨4294967296, 4294967296, []⟩, rfl, show (1 : Nat) ≤ 4294967296 by norm_num,
    show (2 : Nat) ≤ 4294967296 by norm_num, show (4294967296 : Nat) ≠ 1 by norm_num, rfl, rfl⟩

/-- C17 (amended): for a matrix `a` with `rows >= 1`, `cols >= 1` whose buffer
holds exactly `rows * cols` elements (a `std::vector`, so fewer than `2 ^ 64`;
together this is `a.Valid`) and a scalar `s`, `a *= s` completes without a
failed assertion exactly when `a` has one column; with `cols >= 2` the loop
bound exceeds `rows`, the iterations below `rows` succeed, and at `i == rows`
the access `a(i, 0)` fails the range check, which is the result of `a *= s`. -/
theorem mulAssign_one_column_iff {α : Type} [Mul α] (a : Matrix α) (ha : a.Valid) (s : α) :
    (a.mulAssign s ≠ .error .assertion ↔ a.cols = 1) ∧
    ((∃ r, a.mulAssign s = .ok r) ↔ a.cols = 1) ∧
    (2 ≤ a.cols →
      a.rows < wrap (a.rows * a.cols) ∧
      (∃ t, forLoop (fun i a =>
          match a.getAt i 0 with
          | .ok x => a.setAt i 0 (x * s)
          | .error e => .error e) a.rows a = .ok t ∧
        t.getAt a.rows 0 = .error .assertion) ∧
      a.mulAssign s = .error .assertion) := by
  obtain ⟨t, ht, hts⟩ := Matrix.mulAssign_prefix a ha s
  have hone : a.cols = 1 → a.mulAssign s = .ok (t, t) := by
    intro h1
    have hw : wrap (a.rows * a.cols) = a.rows := by
      rw [wrap_of_lt ha.lt, h1, Nat.mul_one]
    simp only [Matrix.mulAssign, Matrix.shape, hw, ht]
  have htwo : 2 ≤ a.cols →
      a.rows < wrap (a.rows * a.cols) ∧
      (∃ t, forLoop (fun i a =>
          match a.getAt i 0 with
          | .ok x => a.setAt i 0 (x * s)
          | .error e => .error e) a.rows a = .ok t ∧
        t.getAt a.rows 0 = .error .assertion) ∧
      a.mulAssign s = .error .assertion := by
    intro h2
    have hlt : a.rows < wrap (a.rows * a.cols) := by
      rw [wrap_of_lt ha.lt]
      have := ha.1
      nlinarith
    have hget : t.getAt a.rows 0 = .error .assertion := by
      have hn : ¬ (a.rows < t.rows ∧ 0 < t.cols) := by
        rw [hts.1]; omega
      simp only [Matrix.getAt, hn, if_false]
    refine ⟨hlt, ⟨t, ht, hget⟩, ?_⟩
    have hloop := forLoop_error_at (fun i a =>
        match a.getAt i 0 with
        | .ok x => a.setAt i 0 (x * s)
        | .error e => .error e) a.rows a t .assertion ht (by simp only [hget])
      (wrap (a.rows * a.cols)) hlt
    simp only [Matrix.mulAssign, Matrix.shape, hloop]
  have hcases : a.cols = 1 ∨ 2 ≤ a.cols := by
    have := ha.2.1
    omega
  refine ⟨⟨fun h => ?_, fun h1 => ?_⟩, ⟨fun h => ?_, fun h1 => ⟨_, hone h1⟩⟩, htwo⟩
  · rcases hcases with h1 | h2
    · exact h1
    · exact absurd (htwo h2).2.2 h
  · rw [hone h1]
    intro hh; cases hh
  · rcases hcases with h1 | h2
    · exact h1
    · obtain ⟨r, hr⟩ := h
      rw [(htwo h2).2.2] at hr
      cases hr

/-- Witness for C17 (amended): the `2 x 1` matrix `[1; 2]` is scaled by `*= 3`, the
`2 x 2` matrix `[1 2; 3 4]` stops on the assertion. -/
theorem mulAssign_one_column_iff_witness :
    (∃ r, (⟨2, 1, [1, 2]⟩ : Matrix Int).mulAssign 3 = .ok r) ∧
    (⟨2, 1, [1, 2]⟩ : Matrix Int).mulAssign 3 = .ok (⟨2, 1, [3, 6]⟩, ⟨2, 1, [3, 6]⟩) ∧
    (⟨2, 2, [1, 2, 3, 4]⟩ : Matrix Int).mulAssign 3 = .error .assertion :=
  ⟨(mulAssign_one_column_iff (⟨2, 1, [1, 2]⟩ : Matrix Int) (by decide) 3).2.1.2 rfl, rfl,
    ((mulAssign_one_column_iff (⟨2, 2, [1, 2, 3, 4]⟩ : Matrix Int) (by decide) 3).2.2
      (by decide)).2.2⟩

/-! ## Linear index and buffer length in `std::size_t` -/

/-- C18 as stated fails: `rows = cols = 2^32` are positive 64-bit values, the
buffer of `Matrix(2^32, 2^32)` has `2^32 * 2^32 mod 2^64 = 0` elements, and for
`i = j = 0` the linear index `0` is not below that length: `at(0, 0)` passes
the range check and indexes outside the buffer. -/
theorem index_in_buffer_counterexample :
    (0 : Nat) < 4294967296 ∧ (4294967296 : Nat) < SIZE_MOD ∧
    ∃ m : Matrix Int, Matrix.new 4294967296 4294967296 = .ok m ∧
      m.elements.length = wrap (4294967296 * 4294967296) ∧
      wrap (4294967296 * 4294967296) = 0 ∧ wrap (0 * 4294967296 + 0) = 0 ∧
      ¬ (wrap (0 * 4294967296 + 0) < m.elements.length) ∧
      m.getAt 0 0 = .error .outOfRange := by
  refine ⟨by norm_num, by norm_num [SIZE_MOD], ⟨4294967296, 4294967296, []⟩, rfl, rfl, rfl, rfl,
    ?_, rfl⟩
  show ¬ (wrap (0 * 4294967296 + 0) < 0)
  exact Nat.not_lt_zero _

/-- C18 (amended): for `rows > 0`, `cols > 0`, `Matrix(rows, cols)` is built
with `rows * cols mod 2^64` elements; when `rows * cols < 2^64` the linear
index `i * cols + j` (mod `2^64`) of every `i < rows`, `j < cols` is below the
buffer length and `at(i, j)` succeeds; when `rows * cols >= 2^64` some
in-range `(i, j)` indexes outside the buffer. -/
theorem index_in_buffer {α : Type} [Zero α] (rows cols : Nat) (hr : 0 < rows)
    (hc : 0 < cols) :
    ∃ m : Matrix α, Matrix.new rows cols = .ok m ∧
      m.elements.length = wrap (rows * cols) ∧
      (rows * cols < SIZE_MOD → ∀ i j, i < rows → j < cols →
        wrap (i * cols + j) < m.elements.length ∧ ∃ x, m.getAt i j = .ok x) ∧
      (SIZE_MOD ≤ rows * cols → ∃ i j, i < rows ∧ j < cols ∧
        ¬ (wrap (i * cols + j) < m.elements.length) ∧
        m.getAt i j = .error .outOfRange) := by
  have hpos : 0 < rows ∧ 0 < cols := ⟨hr, hc⟩
  refine ⟨⟨rows, cols, List.replicate (wrap (rows * cols)) 0⟩,
    by simp only [Matrix.new, hpos, and_self, if_true], List.length_replicate _ _, ?_, ?_⟩
  · intro hlt i j hi hj
    have hk : i * cols + j < rows * cols := rowMajor_lt hi hj
    have hs : Matrix.Sized rows cols
        (⟨rows, cols, List.replicate (wrap (rows * cols)) 0⟩ : Matrix α) :=
      ⟨rfl, rfl, by simp [wrap_of_lt hlt]⟩
    obtain ⟨x, hx, _⟩ := Matrix.getAt_exists hs hlt hi hj
    refine ⟨?_, x, hx⟩
    show wrap (i * cols + j) < (List.replicate (wrap (rows * cols)) (0 : α)).length
    rw [List.length_replicate, wrap_of_lt hlt, wrap_of_lt (by omega)]
    exact hk
  · intro hge
    have hW : wrap (rows * cols) < SIZE_MOD := Nat.mod_lt _ (by unfold SIZE_MOD; positivity)
    have hWlt : wrap (rows * cols) < rows * cols := by omega
    have hi0 : wrap (rows * cols) / cols < rows := (Nat.div_lt_iff_lt_mul hc).2 hWlt
    have hj0 : wrap (rows * cols) % cols < cols := Nat.mod_lt _ hc
    have hsum : wrap (rows * cols) / cols * cols + wrap (rows * cols) % cols =
        wrap (rows * cols) := by
      rw [Nat.mul_comm]; exact Nat.div_add_mod _ cols
    refine ⟨wrap (rows * cols) / cols, wrap (rows * cols) % cols, hi0, hj0, ?_, ?_⟩
    · show ¬ (_ < (List.replicate (wrap (rows * cols)) (0 : α)).length)
      rw [List.length_replicate, hsum, wrap_of_lt hW]
      exact Nat.lt_irrefl _
    · have hin : wrap (rows * cols) / cols < rows ∧ wrap (rows * cols) % cols < cols :=
        ⟨hi0, hj0⟩
      simp only [Matrix.getAt, hin, and_self, if_true, hsum, wrap_of_lt hW, vecGet]
      rw [List.getElem?_eq_none (by simp)]

/-- Witness for C18 (amended): in `Matrix(2, 3)` every in-range index is below
the buffer length `6`. -/
theorem index_in_buffer_witness :
    ∃ m : Matrix Int, Matrix.new 2 3 = .ok m ∧ m.elements.length = wrap (2 * 3) ∧
      ∀ i j, i < 2 → j < 3 →
        wrap (i * 3 + j) < m.elements.length ∧ ∃ x, m.getAt i j = .ok x := by
  obtain ⟨m, hm, hl, hsafe, _⟩ := @index_in_buffer Int _ 2 3 (by decide) (by decide)
  exact ⟨m, hm, hl, hsafe (by decide)⟩

/-! ## Element assignment -/

/-- C19 as stated fails: on `Matrix(2^32, 2^32)`, returned by the constructor
with an empty buffer, `i = 0 < rows` and `j = 0 < cols`, but assigning `7`
through `at(0, 0)` stores past the end of the buffer: no later `at(0, 0)`
returns `7`. -/
theorem setAt_frame_counterexample :
    ∃ m : Matrix Int, Matrix.new 4294967296 4294967296 = .ok m ∧
      0 < m.rows ∧ 0 < m.cols ∧ m.setAt 0 0 7 = .error .outOfRange ∧
      ∀ m1, m.setAt 0 0 7 ≠ .ok m1 :=
  ⟨⟨4294967296, 4294967296, []⟩, rfl, show (0 : Nat) < 4294967296 by norm_num,
    show (0 : Nat) < 4294967296 by norm_num, rfl, fun m1 h => by cases h⟩

/-- C19 (amended): for a matrix `m` of shape `(rows, cols)` whose buffer holds
exactly `rows * cols` elements (a `std::vector`, so fewer than `2 ^ 64`),
`i < rows`, `j < cols` and a value `x`, assigning `x` through `at(i, j)`
succeeds; afterwards `at(i, j)` returns `x`, the shape is unchanged, and
`at(p, q)` is unchanged at every other in-range position. -/
theorem setAt_frame {α : Type} (m : Matrix α) (hs : m.SizeOk)
    (hv : m.elements.length < SIZE_MOD) (i j : Nat) (hi : i < m.rows)
    (hj : j < m.cols) (x : α) :
    ∃ m1, m.setAt i j x = .ok m1 ∧ m1.getAt i j = .ok x ∧ m1.shape = m.shape ∧
      ∀ p q, p < m.rows → q < m.cols → (p, q) ≠ (i, j) → m1.getAt p q = m.getAt p q := by
  have hlt : m.rows * m.cols < SIZE_MOD := by rw [← hs]; exact hv
  have hms : Matrix.Sized m.rows m.cols m := ⟨rfl, rfl, hs⟩
  have hs1 : Matrix.Sized m.rows m.cols
      ({ m with elements := m.elements.set (i * m.cols + j) x } : Matrix α) :=
    ⟨rfl, rfl, by simpa using hs⟩
  have hk : i * m.cols + j < m.elements.length := by
    rw [hs]; exact rowMajor_lt hi hj
  refine ⟨_, Matrix.setAt_sized hms hlt hi hj x, ?_, rfl, fun p q hp hq hne => ?_⟩
  · rw [Matrix.getAt_iff hs1 hlt hi hj]
    exact List.getElem?_set_self hk
  · obtain ⟨y, hy, hy2⟩ := Matrix.getAt_exists hms hlt hp hq
    rw [hy, Matrix.getAt_iff hs1 hlt hp hq]
    have hidx : i * m.cols + j ≠ p * m.cols + q := fun h => by
      obtain ⟨h1, h2⟩ := rowMajor_inj hj hq h
      exact hne (by rw [h1, h2])
    show (m.elements.set (i * m.cols + j) x)[p * m.cols + q]? = some y
    rw [List.getElem?_set_ne hidx]
    exact hy2

/-- Witness for C19 (amended): assigning `9` to `at(0, 1)` of `Matrix(2,2,[1,2,3,4])`
gives `Matrix(2,2,[1,9,3,4])`. -/
theorem setAt_frame_witness :
    (⟨2, 2, [1, 2, 3, 4]⟩ : Matrix Int).setAt 0 1 9 = .ok ⟨2, 2, [1, 9, 3, 4]⟩ ∧
    ∃ m1, (⟨2, 2, [1, 2, 3, 4]⟩ : Matrix Int).setAt 0 1 9 = .ok m1 ∧ m1.getAt 0 1 = .ok 9 ∧
      m1.shape = (2, 2) ∧
      ∀ p q, p < 2 → q < 2 → (p, q) ≠ (0, 1) →
        m1.getAt p q = (⟨2, 2, [1, 2, 3, 4]⟩ : Matrix Int).getAt p q :=
  ⟨rfl, setAt_frame ⟨2, 2, [1, 2, 3, 4]⟩ rfl (by decide) 0 1 (by decide) (by decide) 9⟩

end MatrixLib
